import Mathlib

set_option maxHeartbeats 2000000

/-
Verification of the Synaxis style-fixing scripts.

Python strings are embedded as `List Char`; a file document is the full
content as one character list. Each Python pass is translated into an
executable Lean function operating on that representation.  Regular
expression substitutions are translated into deterministic scanners whose
match conditions are derived from the backtracking semantics of the
concrete pattern (the derivations are recorded at each definition and
were cross-checked against CPython re on the relevant inputs).
-/

namespace Synaxis

/-- Python whitespace: the characters stripped by str.strip / str.rstrip /
str.lstrip and matched by the regex whitespace class (space, tab, newline,
carriage return, vertical tab, form feed). -/
def pyWs (c : Char) : Bool :=
  c == ' ' || c == '\t' || c == '\n' || c == '\r' || c == Char.ofNat 11 || c == Char.ofNat 12

/-- Python str.lstrip(): drop leading whitespace. -/
def lstrip (s : List Char) : List Char := s.dropWhile pyWs

/-- Python str.rstrip(): drop trailing whitespace. -/
def rstrip (s : List Char) : List Char := (s.reverse.dropWhile pyWs).reverse

/-- Python str.strip(): drop whitespace on both sides. -/
def pyStrip (s : List Char) : List Char := lstrip (rstrip s)

/-- Python content.split on the newline character: every newline is a
separator, so the empty string splits to one empty line. -/
def splitNl : List Char → List (List Char)
  | [] => [[]]
  | c :: cs =>
    if c == '\n' then [] :: splitNl cs
    else
      match splitNl cs with
      | [] => [[c]]
      | t :: ts => (c :: t) :: ts

/-- Python newline.join(lines). -/
def joinNl : List (List Char) → List Char
  | [] => []
  | [l] => l
  | l :: ls => l ++ '\n' :: joinNl ls

/-- Python substring containment test (the in operator on str). -/
def isSub : List Char → List Char → Bool
  | n, [] => n.isEmpty
  | n, c :: t => n.isPrefixOf (c :: t) || isSub n t

/- ------------------------------------------------------------------
src/fix_style_errors.py
------------------------------------------------------------------- -/

/-- Successor-side test of fix_sa1413_trailing_comma
(src/fix_style_errors.py line 61): the lstripped successor starts with a
closing brace or closing parenthesis. -/
def sa1413Next (next : List Char) : Bool :=
  ['}'].isPrefixOf (lstrip next) || [')'].isPrefixOf (lstrip next)

/-- Current-line test of fix_sa1413_trailing_comma
(src/fix_style_errors.py lines 62-63): the rstripped line is non-empty and
does not already end with a comma, opening brace, opening parenthesis, or
opening bracket. -/
def sa1413Cur (line : List Char) : Bool :=
  !(rstrip line).isEmpty &&
  !([','].isSuffixOf (rstrip line)) &&
  !(['{'].isSuffixOf (rstrip line)) &&
  !(['('].isSuffixOf (rstrip line)) &&
  !(['['].isSuffixOf (rstrip line))

/-- Condition of fix_sa1413_trailing_comma (src/fix_style_errors.py lines
61-63) on a line and its immediate successor. -/
def sa1413Cond (line next : List Char) : Bool :=
  sa1413Next next && sa1413Cur line

/-- Single-line result of the fix_sa1413 loop body for a line with a
successor: on a match the rstripped line with a comma appended is emitted,
otherwise the line is emitted unchanged. -/
def sa1413Step (l next : List Char) : List Char :=
  if sa1413Cond l next then rstrip l ++ [','] else l

/-- Loop of fix_sa1413_trailing_comma over the line list: each line with a
successor goes through `sa1413Step`; the final line is always emitted
unchanged. -/
def sa1413Go : List (List Char) → List (List Char)
  | [] => []
  | [l] => [l]
  | l :: next :: rest => sa1413Step l next :: sa1413Go (next :: rest)

/-- Head of the fix_sa1413 output for a line followed by the given rest of
the document. -/
def sa1413Head (l : List Char) : List (List Char) → List Char
  | [] => l
  | m :: _ => sa1413Step l m

/-- fix_sa1413_trailing_comma (src/fix_style_errors.py lines 47-71):
split on newlines, process, re-join. -/
def fix_sa1413_trailing_comma (c : List Char) : List Char :=
  joinNl (sa1413Go (splitNl c))

/-- Keyword alternatives of the fix_sa1503_single_line_if regex, in the
order the alternation lists them. -/
def sa1503Kws : List (List Char) :=
  ["if".toList, "else if".toList, "else".toList, "foreach".toList,
   "for".toList, "while".toList, "using".toList]

/-- Tail matcher for the suffix of the fix_sa1503 regex after the optional
parenthesized condition: one-or-more whitespace then a non-empty greedy
statement group reaching the end of the line.  The statement returned is
the remainder after the whitespace run, except that when the remainder is
all whitespace the engine backtracks one character so the statement group
is non-empty. -/
def sa1503Tail (r2 : List Char) : Option (List Char) :=
  let w := (r2.takeWhile pyWs).length
  if 1 ≤ w && 2 ≤ r2.length then some (r2.drop (min w (r2.length - 1))) else none

/-- Indices of closing parentheses in a character list, in increasing
order; the non-greedy condition group tries these closing positions from
the smallest up. -/
def closeIdxs (l : List Char) : List Nat :=
  (List.range l.length).filter (fun j => l.getD j ' ' == ')')

/-- Optional condition group of the fix_sa1503 regex: an opening
parenthesis, a non-greedy body, and the first closing parenthesis from
which the rest of the pattern also matches. -/
def sa1503CondArm (r1 : List Char) : Option (List Char × List Char) :=
  match r1 with
  | '(' :: _ =>
    (closeIdxs r1).findSome? (fun j =>
      if 1 ≤ j then (sa1503Tail (r1.drop (j + 1))).map (fun st => (r1.take (j + 1), st))
      else none)
  | _ => none

/-- Backtracking over the greedy whitespace run that precedes the optional
condition group: the run is tried from the maximal length down to zero; at
each length the condition-present arm is tried before the condition-absent
arm.  Returns the captured condition group (empty when absent) and the
statement group. -/
def sa1503WsLevels (rest : List Char) : Nat → Option (List Char × List Char)
  | 0 =>
    match sa1503CondArm rest with
    | some res => some res
    | none => (sa1503Tail rest).map (fun st => ([], st))
  | w + 1 =>
    let r1 := rest.drop (w + 1)
    match sa1503CondArm r1 with
    | some res => some res
    | none =>
      match sa1503Tail r1 with
      | some st => some ([], st)
      | none => sa1503WsLevels rest w

/-- Matcher for the fix_sa1503_single_line_if regex against an lstripped
line: a keyword from `sa1503Kws`, optional whitespace, an optional
parenthesized condition, mandatory whitespace, and a non-empty trailing
statement.  The function is applied to single lines (no newline
characters), where the dot and end anchors of the Python pattern coincide
with this embedding. -/
def matchSA1503 (s : List Char) : Option (List Char × List Char × List Char) :=
  sa1503Kws.findSome? (fun kw =>
    if kw.isPrefixOf s then
      let rest := s.drop kw.length
      (sa1503WsLevels rest ((rest.takeWhile pyWs).length)).map
        (fun p => (kw, p.1, p.2))
    else none)

/-- Per-line transformation of fix_sa1503_single_line_if
(src/fix_style_errors.py lines 15-42): on a regex match, when the stripped
line ends with neither an opening brace nor a semicolon, the line is
replaced by a four-line braced block (bare else omits the condition);
otherwise the line is kept. -/
def sa1503Line (line : List Char) : List (List Char) :=
  let stripped := lstrip line
  let indent := line.take (line.length - stripped.length)
  match matchSA1503 stripped with
  | some (kw, cond, stmt) =>
    if !(['{'].isSuffixOf stripped) && !([';'].isSuffixOf stripped) then
      if kw == "else".toList && !("if".toList.isPrefixOf stmt) then
        [indent ++ kw, indent ++ ['{'], indent ++ "    ".toList ++ stmt, indent ++ ['}']]
      else
        [indent ++ kw ++ cond, indent ++ ['{'], indent ++ "    ".toList ++ stmt, indent ++ ['}']]
    else [line]
  | none => [line]

/-- fix_sa1503_single_line_if (src/fix_style_errors.py lines 9-44). -/
def fix_sa1503_single_line_if (c : List Char) : List Char :=
  joinNl ((splitNl c).map sa1503Line).flatten

/-- Access-modifier test of fix_sa1516_blank_lines
(src/fix_style_errors.py lines 93-97). -/
def sa1516Mods (nl : List Char) : Bool :=
  "public ".toList.isPrefixOf nl || "private ".toList.isPrefixOf nl ||
  "protected ".toList.isPrefixOf nl || "internal ".toList.isPrefixOf nl

/-- Decision of fix_sa1516_blank_lines for inserting a blank line after
line index i, given the line and its successor (src/fix_style_errors.py
lines 82-100): first the closing-brace rule, else the access-modifier rule
guarded by a positive index and a non-blank current line. -/
def sa1516Insert (i : Nat) (line next : List Char) : Bool :=
  let current := pyStrip line
  let nl := pyStrip next
  if current == ['}'] && !nl.isEmpty && !(['}'].isPrefixOf nl) &&
      !("namespace".toList.isPrefixOf nl) && !("//".toList.isPrefixOf nl) then
    true
  else if !nl.isEmpty && sa1516Mods nl && !current.isEmpty && current ≠ ['{'] &&
      !("//".toList.isPrefixOf current) && current ≠ [] then
    decide (0 < i) && !(pyStrip line).isEmpty
  else
    false

/-- Loop of fix_sa1516_blank_lines over the line list, carrying the line
index: each line is emitted, followed by one empty line when
`sa1516Insert` fires for the pair (line, successor). -/
def sa1516Aux : Nat → List (List Char) → List (List Char)
  | _, [] => []
  | _, [l] => [l]
  | i, l :: next :: rest =>
    if sa1516Insert i l next then l :: [] :: sa1516Aux (i + 1) (next :: rest)
    else l :: sa1516Aux (i + 1) (next :: rest)

/-- fix_sa1516_blank_lines (src/fix_style_errors.py lines 74-102). -/
def fix_sa1516_blank_lines (c : List Char) : List Char :=
  joinNl (sa1516Aux 0 (splitNl c))

/-- Transformation applied by process_file (src/fix_style_errors.py lines
111-114): only the trailing-comma pass is active; the sa1503 and sa1516
calls are commented out in the source. -/
def processTransform (c : List Char) : List Char := fix_sa1413_trailing_comma c

/-- File effect of process_file (src/fix_style_errors.py lines 105-122):
the file is read, transformed, and written back unconditionally (there is
no comparison with the original).  Result: final on-disk content and
whether a write occurred. -/
def processFileRun (c : List Char) : List Char × Bool :=
  (processTransform c, true)

/- ------------------------------------------------------------------
src/fix_integration_tests.py
------------------------------------------------------------------- -/

/-- Word character of the regex word-boundary class on ASCII input. -/
def isWordChar (c : Char) : Bool := c.isAlphanum || c == '_'

/-- Word boundary after a match whose last character is a word character:
the following character is absent or not a word character. -/
def wordBoundaryAfter (s : List Char) : Bool :=
  match s.head? with
  | none => true
  | some d => !isWordChar d

/-- One re.sub pass for a literal pattern ending in a word boundary, such
as the Email, TenantId, PayloadJson and Offset renames of fix_file
(src/fix_integration_tests.py lines 19-26): left-to-right non-overlapping
scan; each occurrence of the literal followed by a word boundary is
replaced and scanning resumes after it. -/
def subWordAux (pat rep : List Char) : List Char → Nat → List Char
  | s, 0 => s
  | s, fuel + 1 =>
    match s with
    | [] => []
    | c :: cs =>
      if pat.isPrefixOf (c :: cs) && wordBoundaryAfter ((c :: cs).drop pat.length) then
        rep ++ subWordAux pat rep ((c :: cs).drop pat.length) fuel
      else
        c :: subWordAux pat rep cs fuel

/-- Literal word-boundary substitution over a whole document. -/
def subWord (pat rep s : List Char) : List Char := subWordAux pat rep s s.length

/-- Match of the ConfigureAwait pattern at the start of s.  Determinized
from the backtracking semantics of the pattern: a match requires the
literal await followed by a whitespace character; the first group extends
to a closing parenthesis that is the last non-whitespace character before
the first following semicolon, with at least two characters between await
and that parenthesis; the second group is the intervening whitespace plus
the semicolon.  Returns (whole match, first group, second group). -/
def matchAwaitAt (s : List Char) : Option (List Char × List Char × List Char) :=
  if "await".toList.isPrefixOf s then
    let r := s.drop 5
    match r.head? with
    | some c0 =>
      if pyWs c0 then
        match r.findIdx? (fun c => c == ';') with
        | some k =>
          let t := r.take k
          let rt := rstrip t
          if 3 ≤ rt.length && rt.getLast? == some ')' then
            some ("await".toList ++ r.take (k + 1), "await".toList ++ rt,
                  t.drop rt.length ++ [';'])
          else none
        | none => none
      else none
    | none => none
  else none

/-- Replacement the ConfigureAwait substitution emits for one match
(src/fix_integration_tests.py line 31): the whole match unchanged when the
marker substring already occurs in it, otherwise the first group, the
appended suffix, and the second group. -/
def awaitRepl (g0 g1 g2 : List Char) : List Char :=
  if isSub ".ConfigureAwait".toList g0 then g0
  else g1 ++ ".ConfigureAwait(false)".toList ++ g2

/-- ConfigureAwait append substitution of fix_file
(src/fix_integration_tests.py lines 28-33): at each match the replacement
of `awaitRepl` is emitted and scanning resumes after the match. -/
def awaitSubAux : List Char → Nat → List Char
  | s, 0 => s
  | s, fuel + 1 =>
    match s with
    | [] => []
    | c :: cs =>
      match matchAwaitAt (c :: cs) with
      | some (g0, g1, g2) =>
        awaitRepl g0 g1 g2 ++ awaitSubAux ((c :: cs).drop g0.length) fuel
      | none => c :: awaitSubAux cs fuel

/-- ConfigureAwait pass over a whole document. -/
def awaitPass (s : List Char) : List Char := awaitSubAux s s.length

/-- Match of the StringComparison pattern at the start of s.  Determinized
from the backtracking semantics: after the literal Assert.Equal and
opening parenthesis, the first argument group is the non-empty run up to
the first comma; the second group then extends to the first following
comma or closing parenthesis, which must be a closing parenthesis with at
least one character before it.  Returns (first group, match length). -/
def matchAssertAt (s : List Char) : Option (List Char × Nat) :=
  if "Assert.Equal(".toList.isPrefixOf s then
    let r := s.drop 13
    match r.findIdx? (fun c => c == ',') with
    | some c1 =>
      if 1 ≤ c1 then
        let r2 := r.drop (c1 + 1)
        match r2.findIdx? (fun c => c == ',' || c == ')') with
        | some k =>
          if r2.getD k ' ' == ')' && 1 ≤ k then
            some ("Assert.Equal(".toList ++ r.take (c1 + 1) ++ r2.take k,
                  13 + c1 + 1 + k + 1)
          else none
        | none => none
      else none
    | none => none
  else none

/-- Replacement the StringComparison substitution emits for one match
(src/fix_integration_tests.py line 39): the argument is appended before
the closing parenthesis unless the marker substring occurs in the whole
match (the first group plus the closing parenthesis) or the first group
holds no double quote. -/
def assertRepl (g1 : List Char) : List Char :=
  if !(isSub "StringComparison".toList (g1 ++ [')'])) && g1.contains '"' then
    g1 ++ ", StringComparison.Ordinal".toList ++ [')']
  else g1 ++ [')']

/-- StringComparison append substitution of fix_file
(src/fix_integration_tests.py lines 35-41): at each match the replacement
of `assertRepl` is emitted and scanning resumes after the match. -/
def assertSubAux : List Char → Nat → List Char
  | s, 0 => s
  | s, fuel + 1 =>
    match s with
    | [] => []
    | c :: cs =>
      match matchAssertAt (c :: cs) with
      | some (g1, len) =>
        assertRepl g1 ++ assertSubAux ((c :: cs).drop len) fuel
      | none => c :: assertSubAux cs fuel

/-- StringComparison pass over a whole document. -/
def assertPass (s : List Char) : List Char := assertSubAux s s.length

/-- Match of the using-directive pattern at the start of s: the literal
using, a whitespace character, at least one further character before the
first semicolon, ending at that semicolon.  Returns (match, remainder
after the match). -/
def matchUsingAt (s : List Char) : Option (List Char × List Char) :=
  if "using".toList.isPrefixOf s then
    let r := s.drop 5
    match r.head? with
    | some c0 =>
      if pyWs c0 then
        match r.findIdx? (fun c => c == ';') with
        | some k =>
          if 2 ≤ k then some ("using".toList ++ r.take (k + 1), r.drop (k + 1))
          else none
        | none => none
      else none
    | none => none
  else none

/-- re.findall of the using-directive pattern: left-to-right
non-overlapping scan collecting every match. -/
def findallUsingAux : List Char → Nat → List (List Char)
  | _, 0 => []
  | s, fuel + 1 =>
    match s with
    | [] => []
    | c :: cs =>
      match matchUsingAt (c :: cs) with
      | some (m, rest) => m :: findallUsingAux rest fuel
      | none => findallUsingAux cs fuel

/-- All using-directive matches of a document. -/
def findallUsing (s : List Char) : List (List Char) := findallUsingAux s s.length

/-- Strict lexicographic comparison of Python strings by code point. -/
def pyLt : List Char → List Char → Bool
  | [], [] => false
  | [], _ :: _ => true
  | _ :: _, [] => false
  | a :: as_, b :: bs => if a < b then true else if b < a then false else pyLt as_ bs

/-- Lexicographic less-or-equal on Python strings. -/
def pyLe : List Char → List Char → Bool
  | [], _ => true
  | _ :: _, [] => false
  | a :: as_, b :: bs => if a < b then true else if b < a then false else pyLe as_ bs

/-- Stable insertion of a string into a sorted list, placing the new
element before the first element it is less-or-equal to. -/
def pyInsert (x : List Char) : List (List Char) → List (List Char)
  | [] => [x]
  | y :: ys => if pyLe x y then x :: y :: ys else y :: pyInsert x ys

/-- Python sorted() on a list of strings: stable ascending lexicographic
order. -/
def pySorted : List (List Char) → List (List Char)
  | [] => []
  | x :: xs => pyInsert x (pySorted xs)

/-- Python str.replace(old, new, 1): replace the first occurrence of old,
scanning left to right; the document is unchanged when old does not
occur. -/
def replaceFirst : List Char → List Char → List Char → List Char
  | [], _, _ => []
  | c :: cs, old, new =>
    if old.isPrefixOf (c :: cs) then new ++ (c :: cs).drop old.length
    else c :: replaceFirst cs old new

/-- Filter of fix_file for using directives mentioning System. -/
def usingFilterSys (us : List (List Char)) : List (List Char) :=
  us.filter (fun u => isSub "System".toList u)

/-- Filter of fix_file for the remaining non-empty using directives. -/
def usingFilterOth (us : List (List Char)) : List (List Char) :=
  us.filter (fun u => !(isSub "System".toList u) && !u.isEmpty)

/-- Using-directive reordering pass of fix_file
(src/fix_integration_tests.py lines 43-55): collect the using directives
of the first 2000 characters; when there are more than two of them with at
least one System directive and one other directive, replace the first
occurrence of their newline-joined sequence by the sorted System
directives followed by the sorted others. -/
def usingsPass (c : List Char) : List Char :=
  let us := findallUsing (c.take 2000)
  if us ≠ [] ∧ 2 < us.length then
    let su := pySorted (usingFilterSys us)
    let ou := pySorted (usingFilterOth us)
    if su ≠ [] ∧ ou ≠ [] then replaceFirst c (joinNl us) (joinNl (su ++ ou))
    else c
  else c

/-- Trailing-whitespace removal of fix_file
(src/fix_integration_tests.py lines 57-60): every line is rstripped. -/
def stripPass (c : List Char) : List Char :=
  joinNl ((splitNl c).map rstrip)

/-- Full text transformation of fix_file (src/fix_integration_tests.py
lines 9-60), in source order: the four word-boundary renames, the
ConfigureAwait append, the StringComparison append, the using-directive
reorder, and the trailing-whitespace removal. -/
def fixFileTransform (c : List Char) : List Char :=
  stripPass (usingsPass (assertPass (awaitPass
    (subWord ".Offset".toList ".Offset".toList
      (subWord ".PayloadJson".toList ".NewValues".toList
        (subWord ".TenantId".toList ".OrganizationId".toList
          (subWord ".Email".toList ".email".toList c)))))))

/-- File effect of fix_file (src/fix_integration_tests.py lines 62-67):
the transformed text is written back only when it differs from the
original.  Result: final on-disk content and whether a write occurred. -/
def fixFileRun (c : List Char) : List Char × Bool :=
  let t := fixFileTransform c
  if t == c then (c, false) else (t, true)

/- ------------------------------------------------------------------
Batch and CLI orchestration models.  The filesystem is abstracted as the
list of per-file read results: some content for a readable file, none for
a file whose open or read raises.
------------------------------------------------------------------- -/

/-- Outcome of process_file on one file (src/fix_style_errors.py lines
105-122): any exception is caught inside the function, reported, and
turned into a False return; a readable file is processed and yields
True. -/
def processFileOutcome (r : Option (List Char)) : Bool :=
  match r with
  | none => false
  | some _ => true

/-- Batch loop of fix_style_errors.main over a directory
(src/fix_style_errors.py lines 135-138): every discovered file is passed
to process_file; the per-file exception handler means the loop always
reaches every file. -/
def runStyleBatch : List (Option (List Char)) → List Bool
  | [] => []
  | f :: fs => processFileOutcome f :: runStyleBatch fs

/-- Result of fix_file on one file (src/fix_integration_tests.py lines
9-67): the function has no exception handler, so a failing read raises
out of the function; otherwise it returns whether the file changed. -/
def fixFileResult (r : Option (List Char)) : Except Unit Bool :=
  match r with
  | none => Except.error ()
  | some c => Except.ok (fixFileRun c).2

/-- Batch loop of fix_integration_tests.main
(src/fix_integration_tests.py lines 12-21): the loop body calls fix_file
with no handler, so the first raising file aborts the whole batch and the
final count is never produced. -/
def runFixBatch : List (Option (List Char)) → Nat → Except Unit Nat
  | [], acc => Except.ok acc
  | f :: fs, acc =>
    match fixFileResult f with
    | Except.error e => Except.error e
    | Except.ok b => runFixBatch fs (acc + if b then 1 else 0)

/-- Classification of the command-line path argument. -/
inductive PathKind where
  | file
  | dir
  | neither
deriving DecidableEq

/-- Observable outcome of fix_style_errors.main. -/
structure MainOut where
  usagePrinted : Bool
  exitCode : Nat
  processedFiles : Nat
deriving DecidableEq

/-- fix_style_errors.main (src/fix_style_errors.py lines 125-138): fewer
than two argv entries print the usage line and exit with status 1; a file
path is processed directly; a directory path processes every discovered
file; any other path falls through both branches and the program ends
silently with status 0. -/
def mainStyleRun (argv : List (List Char)) (kind : PathKind) (dirFiles : Nat) : MainOut :=
  if argv.length < 2 then ⟨true, 1, 0⟩
  else
    match kind with
    | PathKind.file => ⟨false, 0, 1⟩
    | PathKind.dir => ⟨false, 0, dirFiles⟩
    | PathKind.neither => ⟨false, 0, 0⟩

/- ------------------------------------------------------------------
src/parse_failures.py
------------------------------------------------------------------- -/

/-- Error information of a test-result entry: each field is present or
absent, and a present element carries optional text (an empty XML element
has no text). -/
structure ErrInfo where
  message : Option (Option (List Char))
  stackTrace : Option (Option (List Char))
deriving DecidableEq

/-- One UnitTestResult entry of the report document. -/
structure TRXResult where
  outcome : Option (List Char)
  testName : Option (List Char)
  errorInfo : Option ErrInfo
deriving DecidableEq

/-- Outcome attribute value marking a failure. -/
def failedStr : List Char := "Failed".toList

/-- Field extraction of parse_failures.main (src/parse_failures.py lines
23-33): the default is the empty string; a present element has strip
applied to its text, which raises when the element has no text. -/
def extractText (f : Option (Option (List Char))) : Except Unit (List Char) :=
  match f with
  | none => Except.ok []
  | some none => Except.error ()
  | some (some t) => Except.ok (pyStrip t)

/-- Message extraction for one entry: empty when ErrorInfo is absent. -/
def msgOfE (ei : Option ErrInfo) : Except Unit (List Char) :=
  match ei with
  | none => Except.ok []
  | some e => extractText e.message

/-- Stack-trace extraction for one entry: empty when ErrorInfo is
absent. -/
def stOfE (ei : Option ErrInfo) : Except Unit (List Char) :=
  match ei with
  | none => Except.ok []
  | some e => extractText e.stackTrace

/-- Failure-collection loop of parse_failures.main (src/parse_failures.py
lines 17-40): each entry with outcome Failed contributes a block of test
name, message and stack trace; an extraction error aborts the program. -/
def summarize : List TRXResult → Except Unit (List (Option (List Char) × List Char × List Char))
  | [] => Except.ok []
  | r :: rs =>
    if r.outcome == some failedStr then
      match msgOfE r.errorInfo with
      | Except.error e => Except.error e
      | Except.ok m =>
        match stOfE r.errorInfo with
        | Except.error e => Except.error e
        | Except.ok st =>
          match summarize rs with
          | Except.error e => Except.error e
          | Except.ok bs => Except.ok ((r.testName, m, st) :: bs)
    else summarize rs

/-- Pure description of the message field: the empty string whenever the
ErrorInfo child or the Message child or its text is missing. -/
def msgPure (ei : Option ErrInfo) : List Char :=
  match ei with
  | none => []
  | some e =>
    match e.message with
    | none => []
    | some none => []
    | some (some t) => pyStrip t

/-- Pure description of the stack-trace field. -/
def stPure (ei : Option ErrInfo) : List Char :=
  match ei with
  | none => []
  | some e =>
    match e.stackTrace with
    | none => []
    | some none => []
    | some (some t) => pyStrip t

/-- Summary block an entry should produce. -/
def blockOf (r : TRXResult) : Option (List Char) × List Char × List Char :=
  (r.testName, msgPure r.errorInfo, stPure r.errorInfo)

/-- A present Message or StackTrace element has non-empty text. -/
def goodField (f : Option (Option (List Char))) : Bool :=
  match f with
  | none => true
  | some none => false
  | some (some t) => !t.isEmpty

/-- Every Message or StackTrace element present under the entry has
non-empty text. -/
def entryOk (r : TRXResult) : Bool :=
  match r.errorInfo with
  | none => true
  | some e => goodField e.message && goodField e.stackTrace

/-- Outcome-is-Failed test of the collection loop. -/
def isFailed (r : TRXResult) : Bool := r.outcome == some failedStr

/- ------------------------------------------------------------------
Specification-side descriptions used to state the claims.
------------------------------------------------------------------- -/

/-- Interleaving of a line list with at most one inserted blank line per
gap between adjacent original lines: flag true inserts exactly one empty
line after the current line, flag false inserts nothing. -/
def weave : List (List Char) → List Bool → List (List Char)
  | [], _ => []
  | [l], _ => [l]
  | l :: m :: rest, [] => l :: m :: rest
  | l :: m :: rest, b :: bs =>
    if b then l :: [] :: weave (m :: rest) bs else l :: weave (m :: rest) bs

/-- Gap decisions the sa1516 loop takes, one flag per adjacent pair. -/
def gapFlags : Nat → List (List Char) → List Bool
  | _, [] => []
  | _, [_] => []
  | i, l :: m :: rest => sa1516Insert i l m :: gapFlags (i + 1) (m :: rest)

/-- Ascending lexicographic adjacent ordering of a list of strings. -/
def sortedLe (l : List (List Char)) : Prop :=
  List.Chain' (fun a b => pyLe a b = true) l

/-- Using directives collected from the first 2000 characters of a
document. -/
def usingDirectives (c : List Char) : List (List Char) :=
  findallUsing (c.take 2000)

/-- Reordering the using-directive pass installs: System directives in
lexicographic order followed by the remaining directives in lexicographic
order. -/
def usingReordered (c : List Char) : List (List Char) :=
  pySorted (usingFilterSys (usingDirectives c)) ++
    pySorted (usingFilterOth (usingDirectives c))

/-- Firing condition of the using-directive pass: more than two directives
in the window, at least one System directive and at least one other. -/
def usingCond (c : List Char) : Prop :=
  2 < (usingDirectives c).length ∧
  usingFilterSys (usingDirectives c) ≠ [] ∧
  usingFilterOth (usingDirectives c) ≠ []

instance usingCondDecidable (c : List Char) : Decidable (usingCond c) :=
  decidable_of_iff
    (2 < (usingDirectives c).length ∧
      usingFilterSys (usingDirectives c) ≠ [] ∧
      usingFilterOth (usingDirectives c) ≠ []) Iff.rfl

/- ------------------------------------------------------------------
Concrete documents used by counterexamples and witnesses.
------------------------------------------------------------------- -/

/-- Document whose using directives are separated by trailing whitespace:
the reorder pass cannot fire on the first pipeline run but fires on the
second, after the whitespace strip. -/
def c1doc : List Char := "using B;  \nusing System.A;\nusing C;".toList

/-- One-line document that every pass leaves unchanged. -/
def c2doc : List Char := "x".toList

/-- The spec example line for the unbraced-block pass. -/
def c3line : List Char := "  if (x > 0) DoThing();".toList

/-- The four output lines the spec example expects. -/
def c3expected : List Char :=
  "  if (x > 0)\n  \x7b\n      DoThing();\n  \x7d".toList

/-- The spec example lines for the trailing-comma pass. -/
def c4lines : List (List Char) := ["  foo(".toList, "    bar".toList, "  )".toList]

/-- Document with a single line carrying trailing whitespace that the
trailing-comma pass leaves alone. -/
def c6doc : List Char := "x ".toList

/-- A well-formed document for batch counterexamples. -/
def c7good : List Char := "int x;".toList

/-- Batch with one unreadable file followed by nine readable files. -/
def c7batch : List (Option (List Char)) :=
  none :: List.replicate 9 (some c7good)

/-- Document with three adjacent using directives, one of them a System
directive. -/
def c9doc : List Char := "using D;\nusing System.X;\nusing E;\nclass F {}".toList

/-- Report entries for the summarizer witness: one failed entry with no
ErrorInfo child, one passed entry, one failed entry with a message but no
stack trace. -/
def c10results : List TRXResult :=
  [⟨some failedStr, some "T1".toList, none⟩,
   ⟨some "Passed".toList, some "T2".toList, none⟩,
   ⟨some failedStr, some "T3".toList, some ⟨some (some " boom ".toList), none⟩⟩]

/- ------------------------------------------------------------------
Lemmas about the string primitives.
------------------------------------------------------------------- -/

theorem rstrip_eq_rdropWhile (s : List Char) : rstrip s = List.rdropWhile pyWs s := rfl

theorem rstrip_idem (s : List Char) : rstrip (rstrip s) = rstrip s := by
  simpa [rstrip_eq_rdropWhile] using List.rdropWhile_idempotent pyWs s

theorem rstrip_append_comma (l : List Char) : rstrip (l ++ [',']) = l ++ [','] := by
  simpa [rstrip_eq_rdropWhile] using
    List.rdropWhile_concat_neg pyWs l ',' (by decide)

theorem mem_rstrip {a : Char} {s : List Char} (h : a ∈ rstrip s) : a ∈ s := by
  have hp := List.rdropWhile_prefix pyWs s
  exact hp.sublist.subset (rstrip_eq_rdropWhile s ▸ h)

theorem singleton_isPrefixOf_cons (a c : Char) (l : List Char) :
    [a].isPrefixOf (c :: l) = (a == c) := by
  simp [List.isPrefixOf]

theorem singleton_isSuffixOf_append (a c : Char) (l : List Char) :
    [a].isSuffixOf (l ++ [c]) = (a == c) := by
  simp [List.isSuffixOf, singleton_isPrefixOf_cons]

theorem rstrip_ws_decomp (s : List Char) :
    ∃ w, s = rstrip s ++ w ∧ ∀ c ∈ w, pyWs c = true := by
  refine ⟨(s.reverse.takeWhile pyWs).reverse, ?_, ?_⟩
  · calc s = s.reverse.reverse := (List.reverse_reverse s).symm
    _ = (s.reverse.takeWhile pyWs ++ s.reverse.dropWhile pyWs).reverse := by
        rw [List.takeWhile_append_dropWhile]
    _ = rstrip s ++ (s.reverse.takeWhile pyWs).reverse := by
        rw [List.reverse_append]; rfl
  · intro c hc
    rw [List.mem_reverse] at hc
    exact List.mem_takeWhile_imp hc

theorem lstrip_rstrip_ne_nil {s : List Char} (h : rstrip s ≠ []) :
    lstrip (rstrip s) ≠ [] := by
  intro hniil
  have hall : ∀ x ∈ rstrip s, pyWs x = true := by
    simpa [lstrip, List.dropWhile_eq_nil_iff] using hniil
  have hlast := List.rdropWhile_last_not pyWs s (by simpa [rstrip_eq_rdropWhile] using h)
  have hmem : (rstrip s).getLast h ∈ rstrip s := List.getLast_mem h
  exact hlast (hall _ hmem)

theorem lstrip_append_of_ne {a : List Char} (h : lstrip a ≠ []) (b : List Char) :
    lstrip (a ++ b) = lstrip a ++ b := by
  have : (List.dropWhile pyWs a).isEmpty = false := by
    simpa [lstrip, List.isEmpty_iff] using h
  simp [lstrip, List.dropWhile_append, this]

theorem lstrip_ws_append {w : List Char} (hw : ∀ c ∈ w, pyWs c = true) (a : List Char) :
    lstrip (w ++ a) = lstrip a := by
  induction w with
  | nil => simp
  | cons c cs ih =>
    have hc : pyWs c = true := hw c (by simp)
    have hcs : ∀ x ∈ cs, pyWs x = true := fun x hx => hw x (by simp [hx])
    simp [lstrip, List.dropWhile_cons, hc] at ih ⊢
    exact ih hcs

theorem splitNl_ne_nil (s : List Char) : splitNl s ≠ [] := by
  cases s with
  | nil => simp [splitNl]
  | cons c cs =>
    rw [splitNl]
    split
    · simp
    · cases splitNl cs <;> simp

theorem mem_splitNl_no_nl {s : List Char} : ∀ l ∈ splitNl s, '\n' ∉ l := by
  induction s with
  | nil =>
    intro l hl
    simp [splitNl] at hl
    simp [hl]
  | cons c cs ih =>
    intro l hl
    by_cases h : c = '\n'
    · rw [splitNl, if_pos (by simpa using h)] at hl
      rcases List.mem_cons.mp hl with h1 | h1
      · simp [h1]
      · exact ih l h1
    · rw [splitNl, if_neg (by simpa using h)] at hl
      cases hcs : splitNl cs with
      | nil => exact absurd hcs (splitNl_ne_nil cs)
      | cons t ts =>
        rw [hcs] at hl
        rcases List.mem_cons.mp hl with h1 | h1
        · subst h1
          intro hmem
          rcases List.mem_cons.mp hmem with h2 | h2
          · exact h h2.symm
          · exact ih t (by simp [hcs]) h2
        · exact ih l (by simp [hcs, h1])

theorem splitNl_of_no_nl {l : List Char} (h : '\n' ∉ l) : splitNl l = [l] := by
  induction l with
  | nil => rfl
  | cons c cs ih =>
    have hc : ¬(c == '\n') = true := by
      simp only [List.mem_cons] at h
      simpa using fun hcc => h (Or.inl hcc.symm)
    rw [splitNl, if_neg hc, ih (fun hm => h (List.mem_cons.mpr (Or.inr hm)))]

theorem splitNl_append_nl {l : List Char} (h : '\n' ∉ l) (r : List Char) :
    splitNl (l ++ '\n' :: r) = l :: splitNl r := by
  induction l with
  | nil => simp [splitNl]
  | cons c cs ih =>
    have hc : ¬(c == '\n') = true := by
      simp only [List.mem_cons] at h
      simpa using fun hcc => h (Or.inl hcc.symm)
    have hcs : '\n' ∉ cs := fun hm => h (List.mem_cons.mpr (Or.inr hm))
    rw [List.cons_append, splitNl, if_neg hc, ih hcs]

theorem splitNl_joinNl {ls : List (List Char)} (h1 : ls ≠ [])
    (h2 : ∀ l ∈ ls, '\n' ∉ l) : splitNl (joinNl ls) = ls := by
  induction ls with
  | nil => exact absurd rfl h1
  | cons l rest ih =>
    cases rest with
    | nil => exact splitNl_of_no_nl (h2 l (by simp))
    | cons m rest2 =>
      have hj : joinNl (l :: m :: rest2) = l ++ '\n' :: joinNl (m :: rest2) := rfl
      rw [hj, splitNl_append_nl (h2 l (by simp))]
      rw [ih (List.cons_ne_nil m rest2) (fun x hx => h2 x (by simp [hx]))]

/- ------------------------------------------------------------------
Lemmas about the trailing-comma pass.
------------------------------------------------------------------- -/

theorem sa1413Go_cons (l : List Char) (rest : List (List Char)) :
    sa1413Go (l :: rest) = sa1413Head l rest :: sa1413Go rest := by
  cases rest <;> rfl

theorem sa1413Cur_comma (l : List Char) : sa1413Cur (rstrip l ++ [',']) = false := by
  have h1 : rstrip (rstrip l ++ [',']) = rstrip l ++ [','] := rstrip_append_comma (rstrip l)
  have h2 : [','].isSuffixOf (rstrip l ++ [',']) = true := by
    rw [singleton_isSuffixOf_append]; rfl
  simp [sa1413Cur, h1, h2]

theorem sa1413Cond_comma (l n : List Char) : sa1413Cond (rstrip l ++ [',']) n = false := by
  simp [sa1413Cond, sa1413Cur_comma]

theorem sa1413Cur_ne_nil {l : List Char} (h : sa1413Cur l = true) : rstrip l ≠ [] := by
  intro hl
  rw [sa1413Cur, hl] at h
  simp at h

theorem sa1413Next_comma {y : List Char} (h : rstrip y ≠ []) :
    sa1413Next (rstrip y ++ [',']) = sa1413Next y := by
  obtain ⟨w, hw, hwws⟩ := rstrip_ws_decomp y
  have hne : lstrip (rstrip y) ≠ [] := lstrip_rstrip_ne_nil h
  have e1 : lstrip (rstrip y ++ [',']) = lstrip (rstrip y) ++ [','] :=
    lstrip_append_of_ne hne [',']
  have e2 : lstrip y = lstrip (rstrip y) ++ w := by
    conv_lhs => rw [hw]
    exact lstrip_append_of_ne hne w
  cases hc : lstrip (rstrip y) with
  | nil => exact absurd hc hne
  | cons c cr =>
    simp [sa1413Next, e1, e2, hc, singleton_isPrefixOf_cons]

theorem sa1413Cond_head (l y : List Char) (rest : List (List Char))
    (h : sa1413Cond l y = false) : sa1413Cond l (sa1413Head y rest) = false := by
  cases rest with
  | nil => exact h
  | cons m rest2 =>
    show sa1413Cond l (sa1413Step y m) = false
    rw [sa1413Step]
    by_cases hc : sa1413Cond y m = true
    · rw [if_pos hc]
      have hc2 : sa1413Cur y = true := by
        rw [sa1413Cond, Bool.and_eq_true] at hc
        exact hc.2
      have hy : rstrip y ≠ [] := sa1413Cur_ne_nil hc2
      rw [sa1413Cond, sa1413Next_comma hy, ← sa1413Cond]
      exact h
    · rw [if_neg hc]
      exact h

theorem sa1413Step_head (l y : List Char) (rest : List (List Char)) :
    sa1413Step (sa1413Step l y) (sa1413Head y rest) = sa1413Step l y := by
  by_cases hc : sa1413Cond l y = true
  · have hl : sa1413Step l y = rstrip l ++ [','] := by rw [sa1413Step, if_pos hc]
    rw [hl, sa1413Step, if_neg]
    rw [sa1413Cond_comma]
    simp
  · have hl : sa1413Step l y = l := by
      rw [sa1413Step, if_neg hc]
    rw [hl, sa1413Step, if_neg]
    rw [sa1413Cond_head l y rest (by simpa using hc)]
    simp

theorem sa1413Go_idem (ls : List (List Char)) : sa1413Go (sa1413Go ls) = sa1413Go ls := by
  induction ls with
  | nil => rfl
  | cons l rest ih =>
    cases rest with
    | nil => rfl
    | cons m rest2 =>
      have hshape : sa1413Go (m :: rest2) = sa1413Head m rest2 :: sa1413Go rest2 :=
        sa1413Go_cons m rest2
      have h1 : sa1413Go (l :: m :: rest2) = sa1413Step l m :: sa1413Go (m :: rest2) := rfl
      rw [h1, hshape, sa1413Go_cons]
      have h2 : sa1413Head (sa1413Step l m) (sa1413Head m rest2 :: sa1413Go rest2) =
          sa1413Step l m := sa1413Step_head l m rest2
      rw [h2, ← hshape, ih, hshape]

theorem mem_sa1413Go {x : List Char} :
    ∀ {ls : List (List Char)}, x ∈ sa1413Go ls →
      x ∈ ls ∨ ∃ l, l ∈ ls ∧ x = rstrip l ++ [','] := by
  intro ls
  induction ls with
  | nil => intro h; simp [sa1413Go] at h
  | cons l rest ih =>
    intro h
    rw [sa1413Go_cons] at h
    rcases List.mem_cons.mp h with h1 | h1
    · cases rest with
      | nil =>
        left; simp [sa1413Head] at h1; simp [h1]
      | cons m rest2 =>
        simp only [sa1413Head, sa1413Step] at h1
        by_cases hc : sa1413Cond l m = true
        · rw [if_pos hc] at h1
          exact Or.inr ⟨l, by simp, h1⟩
        · rw [if_neg hc] at h1
          exact Or.inl (by simp [h1])
    · rcases ih h1 with h2 | ⟨l2, hl2, he⟩
      · exact Or.inl (List.mem_cons.mpr (Or.inr h2))
      · exact Or.inr ⟨l2, List.mem_cons.mpr (Or.inr hl2), he⟩

theorem sa1413Go_no_nl {ls : List (List Char)} (hls : ∀ l ∈ ls, '\n' ∉ l) :
    ∀ x ∈ sa1413Go ls, '\n' ∉ x := by
  intro x hx
  rcases mem_sa1413Go hx with h | ⟨l, hl, he⟩
  · exact hls x h
  · subst he
    intro hmem
    rcases List.mem_append.mp hmem with h2 | h2
    · exact hls l hl (mem_rstrip h2)
    · simp at h2

theorem sa1413Go_ne_nil {ls : List (List Char)} (h : ls ≠ []) : sa1413Go ls ≠ [] := by
  cases ls with
  | nil => exact absurd rfl h
  | cons l rest => rw [sa1413Go_cons]; simp

theorem fix_sa1413_split (c : List Char) :
    splitNl (fix_sa1413_trailing_comma c) = sa1413Go (splitNl c) := by
  rw [fix_sa1413_trailing_comma]
  exact splitNl_joinNl (sa1413Go_ne_nil (splitNl_ne_nil c))
    (sa1413Go_no_nl (fun l hl => mem_splitNl_no_nl l hl))

theorem fix_sa1413_idem (c : List Char) :
    fix_sa1413_trailing_comma (fix_sa1413_trailing_comma c) = fix_sa1413_trailing_comma c := by
  conv_lhs => rw [fix_sa1413_trailing_comma, fix_sa1413_split, sa1413Go_idem]
  rfl

theorem sa1413Go_length (ls : List (List Char)) : (sa1413Go ls).length = ls.length := by
  induction ls with
  | nil => rfl
  | cons l rest ih => rw [sa1413Go_cons]; simp [ih]

theorem sa1413Go_getD (ls : List (List Char)) :
    ∀ i, i + 1 < ls.length →
      (sa1413Go ls).getD i [] =
        if sa1413Cond (ls.getD i []) (ls.getD (i + 1) []) then
          rstrip (ls.getD i []) ++ [','] else ls.getD i [] := by
  induction ls with
  | nil => intro i h; simp at h
  | cons l rest ih =>
    intro i h
    cases rest with
    | nil => simp at h
    | cons m rest2 =>
      cases i with
      | zero =>
        show (sa1413Step l m :: sa1413Go (m :: rest2)).getD 0 [] = _
        simp [sa1413Step]
      | succ j =>
        have hj : j + 1 < (m :: rest2).length := by
          simpa [Nat.succ_lt_succ_iff] using h
        show (sa1413Step l m :: sa1413Go (m :: rest2)).getD (j + 1) [] = _
        rw [List.getD_cons_succ, ih j hj]
        simp

theorem sa1413Go_getLast? (ls : List (List Char)) :
    (sa1413Go ls).getLast? = ls.getLast? := by
  induction ls with
  | nil => rfl
  | cons l rest ih =>
    cases rest with
    | nil => rfl
    | cons m rest2 =>
      have h1 : sa1413Go (l :: m :: rest2) = sa1413Step l m :: sa1413Go (m :: rest2) := rfl
      rw [h1]
      rw [sa1413Go_cons m rest2] at ih ⊢
      rw [List.getLast?_cons_cons, ih]
      exact (List.getLast?_cons_cons).symm

/- ------------------------------------------------------------------
Lemmas about the blank-line pass.
------------------------------------------------------------------- -/

theorem sa1516Aux_weave : ∀ (ls : List (List Char)) (i : Nat),
    sa1516Aux i ls = weave ls (gapFlags i ls) := by
  intro ls
  induction ls with
  | nil => intro i; rfl
  | cons l rest ih =>
    intro i
    cases rest with
    | nil => rfl
    | cons m rest2 =>
      show (if sa1516Insert i l m then l :: [] :: sa1516Aux (i + 1) (m :: rest2)
            else l :: sa1516Aux (i + 1) (m :: rest2)) =
        weave (l :: m :: rest2) (sa1516Insert i l m :: gapFlags (i + 1) (m :: rest2))
      rw [weave, ih (i + 1)]

/- ------------------------------------------------------------------
Lemmas about sorting and the using-directive pass.
------------------------------------------------------------------- -/

theorem pyInsert_perm (x : List Char) (l : List (List Char)) :
    (pyInsert x l).Perm (x :: l) := by
  induction l with
  | nil => rfl
  | cons y ys ih =>
    rw [pyInsert]
    by_cases h : pyLe x y = true
    · rw [if_pos h]
    · rw [if_neg h]
      exact (ih.cons y).trans (List.Perm.swap x y ys)

theorem pySorted_perm (l : List (List Char)) : (pySorted l).Perm l := by
  induction l with
  | nil => rfl
  | cons x xs ih =>
    rw [pySorted]
    exact (pyInsert_perm x (pySorted xs)).trans (ih.cons x)

theorem pySorted_ne_nil {l : List (List Char)} (h : l ≠ []) : pySorted l ≠ [] := by
  intro hn
  have := (pySorted_perm l).length_eq
  rw [hn] at this
  exact h (List.length_eq_zero.mp this.symm)

theorem pyLe_total (a b : List Char) : pyLe a b = true ∨ pyLe b a = true := by
  induction a generalizing b with
  | nil => left; rfl
  | cons x xs ih =>
    cases b with
    | nil => right; rfl
    | cons y ys =>
      rcases lt_trichotomy x y with h | h | h
      · left; rw [pyLe, if_pos h]
      · subst h
        have hx : ¬x < x := lt_irrefl x
        rcases ih ys with h2 | h2
        · left; rw [pyLe, if_neg hx, if_neg hx]; exact h2
        · right; rw [pyLe, if_neg hx, if_neg hx]; exact h2
      · right; rw [pyLe, if_pos h]

theorem pyInsert_head (x : List Char) (l : List (List Char)) :
    pyInsert x l = x :: l ∨
      ∃ y ys, l = y :: ys ∧ pyLe x y = false ∧ pyInsert x l = y :: pyInsert x ys := by
  cases l with
  | nil => left; rfl
  | cons y ys =>
    by_cases h : pyLe x y = true
    · left; rw [pyInsert, if_pos h]
    · right
      exact ⟨y, ys, rfl, by simpa using h, by rw [pyInsert, if_neg h]⟩

theorem pyInsert_sorted (x : List Char) {l : List (List Char)} (h : sortedLe l) :
    sortedLe (pyInsert x l) := by
  induction l with
  | nil => exact List.chain'_singleton x
  | cons y ys ih =>
    rw [pyInsert]
    by_cases hle : pyLe x y = true
    · rw [if_pos hle]
      exact List.chain'_cons.mpr ⟨hle, h⟩
    · rw [if_neg hle]
      have hys : sortedLe ys := (List.chain'_cons'.mp h).2
      have hins := ih hys
      rcases pyInsert_head x ys with he | ⟨z, zs, hz, _, he⟩
      · rw [he]
        refine List.chain'_cons.mpr ⟨?_, by rw [← he]; exact hins⟩
        rcases pyLe_total x y with h1 | h1
        · exact absurd h1 hle
        · exact h1
      · rw [he]
        refine List.chain'_cons.mpr ⟨?_, by rw [← he]; exact hins⟩
        have : pyLe y z = true := by
          rw [hz] at h
          exact (List.chain'_cons.mp h).1
        exact this

theorem pySorted_sorted (l : List (List Char)) : sortedLe (pySorted l) := by
  induction l with
  | nil => exact List.chain'_nil
  | cons x xs ih => exact pyInsert_sorted x ih

theorem mem_pySorted {x : List Char} {l : List (List Char)} :
    x ∈ pySorted l ↔ x ∈ l := (pySorted_perm l).mem_iff

theorem matchUsingAt_ne_nil {s m r : List Char}
    (h : matchUsingAt s = some (m, r)) : m ≠ [] := by
  rw [matchUsingAt] at h
  dsimp only [] at h
  split at h
  · split at h
    · split at h
      · split at h
        · split at h
          · injection h with hp
            injection hp with h1 h2
            subst h1
            simp
          · cases h
        · cases h
      · cases h
    · cases h
  · cases h

theorem mem_findallUsingAux {u : List Char} :
    ∀ {fuel : Nat} {s : List Char}, u ∈ findallUsingAux s fuel → u ≠ [] := by
  intro fuel
  induction fuel with
  | zero => intro s h; simp [findallUsingAux] at h
  | succ n ih =>
    intro s h
    rw [findallUsingAux.eq_def] at h
    dsimp only [] at h
    cases s with
    | nil => simp at h
    | cons c cs =>
      dsimp only [] at h
      cases hm : matchUsingAt (c :: cs) with
      | none => rw [hm] at h; exact ih h
      | some p =>
        cases p with
        | mk m r =>
          rw [hm] at h
          rcases List.mem_cons.mp h with h1 | h1
          · subst h1; exact matchUsingAt_ne_nil hm
          · exact ih h1

theorem mem_findallUsing_ne_nil {u s : List Char} (h : u ∈ findallUsing s) : u ≠ [] :=
  mem_findallUsingAux h

theorem usingFilter_perm {us : List (List Char)} (h : ∀ u ∈ us, u ≠ []) :
    (usingFilterSys us ++ usingFilterOth us).Perm us := by
  have he : usingFilterOth us = us.filter (fun u => !(isSub "System".toList u)) := by
    apply List.filter_congr
    intro u hu
    cases u with
    | nil => exact absurd rfl (h [] hu)
    | cons c t => simp
  rw [usingFilterSys, he]
  exact List.filter_append_perm _ us

theorem usingsPass_eq {c : List Char} (hc : usingCond c) :
    usingsPass c =
      replaceFirst c (joinNl (usingDirectives c)) (joinNl (usingReordered c)) := by
  obtain ⟨h2, hsys, hoth⟩ := hc
  have hne : usingDirectives c ≠ [] := by
    intro hn
    rw [usingDirectives] at hn
    rw [usingDirectives, hn] at h2
    simp at h2
  rw [usingDirectives] at h2 hne
  rw [usingFilterSys] at hsys
  rw [usingFilterOth] at hoth
  simp only [usingsPass]
  rw [if_pos ⟨hne, h2⟩,
    if_pos ⟨pySorted_ne_nil hsys, pySorted_ne_nil hoth⟩]
  rfl

theorem usingsPass_id {c : List Char} (hc : ¬usingCond c) : usingsPass c = c := by
  by_cases h2 : 2 < (usingDirectives c).length
  · have hor : usingFilterSys (usingDirectives c) = [] ∨
        usingFilterOth (usingDirectives c) = [] := by
      by_contra hco
      push_neg at hco
      exact hc ⟨h2, hco.1, hco.2⟩
    simp only [usingsPass]
    by_cases hne : findallUsing (c.take 2000) ≠ []
    · rw [if_pos ⟨hne, h2⟩, if_neg]
      intro hand
      rcases hor with h | h
      · exact hand.1 (by rw [usingDirectives] at h; rw [h]; rfl)
      · exact hand.2 (by rw [usingDirectives] at h; rw [h]; rfl)
    · rw [if_neg]
      intro hand
      exact hne hand.1
  · simp only [usingsPass]
    rw [if_neg]
    intro hand
    exact h2 hand.2

/- ------------------------------------------------------------------
Lemmas about the summarizer.
------------------------------------------------------------------- -/

theorem msgOfE_ok {ei : Option ErrInfo}
    (h : ∀ e, ei = some e → goodField e.message = true) :
    msgOfE ei = Except.ok (msgPure ei) := by
  cases hei : ei with
  | none => rfl
  | some e =>
    have hg := h e hei
    cases hm : e.message with
    | none => simp [msgOfE, extractText, msgPure, hm]
    | some t =>
      cases t with
      | none => rw [hm, goodField] at hg; cases hg
      | some u => simp [msgOfE, extractText, msgPure, hm]

theorem stOfE_ok {ei : Option ErrInfo}
    (h : ∀ e, ei = some e → goodField e.stackTrace = true) :
    stOfE ei = Except.ok (stPure ei) := by
  cases hei : ei with
  | none => rfl
  | some e =>
    have hg := h e hei
    cases hm : e.stackTrace with
    | none => simp [stOfE, extractText, stPure, hm]
    | some t =>
      cases t with
      | none => rw [hm, goodField] at hg; cases hg
      | some u => simp [stOfE, extractText, stPure, hm]

theorem summarize_ok {results : List TRXResult}
    (h : ∀ r ∈ results, isFailed r = true → entryOk r = true) :
    summarize results = Except.ok ((results.filter isFailed).map blockOf) := by
  induction results with
  | nil => rfl
  | cons r rs ih =>
    have hrs : ∀ x ∈ rs, isFailed x = true → entryOk x = true :=
      fun x hx => h x (List.mem_cons.mpr (Or.inr hx))
    by_cases hr : (r.outcome == some failedStr) = true
    · have hok : entryOk r = true := h r (by simp) hr
      have hfield : ∀ e, r.errorInfo = some e →
          goodField e.message = true ∧ goodField e.stackTrace = true := by
        intro e he
        rw [entryOk, he] at hok
        simpa using hok
      rw [summarize, if_pos hr,
        msgOfE_ok (fun e he => (hfield e he).1),
        stOfE_ok (fun e he => (hfield e he).2), ih hrs]
      have hf : List.filter isFailed (r :: rs) = r :: List.filter isFailed rs :=
        List.filter_cons_of_pos hr
      rw [hf]
      rfl
    · rw [summarize, if_neg hr, ih hrs]
      have hf : List.filter isFailed (r :: rs) = List.filter isFailed rs :=
        List.filter_cons_of_neg (by simpa [isFailed] using hr)
      rw [hf]

/- ------------------------------------------------------------------
Lemmas about the whitespace-strip pass.
------------------------------------------------------------------- -/

theorem stripPass_lines {c l : List Char} (h : l ∈ splitNl (stripPass c)) :
    rstrip l = l := by
  rw [stripPass,
    splitNl_joinNl
      (fun hh => splitNl_ne_nil c (List.map_eq_nil_iff.mp hh))
      (by
        intro x hx
        rcases List.mem_map.mp hx with ⟨m, hm, he⟩
        subst he
        exact fun hn => mem_splitNl_no_nl m hm (mem_rstrip hn))] at h
  rcases List.mem_map.mp h with ⟨m, hm, he⟩
  subst he
  exact rstrip_idem m

/- ------------------------------------------------------------------
Claims.
------------------------------------------------------------------- -/

/-- C1 (counterexample): the fix_file pipeline is not idempotent.  On a
document whose using directives are separated only by trailing whitespace,
the first run strips the whitespace without reordering (the joined
directive sequence does not occur literally), and the second run reorders;
so running the pipeline twice differs from running it once. -/
theorem claim1_counterexample :
    fixFileTransform (fixFileTransform c1doc) ≠ fixFileTransform c1doc := by decide

/-- C1 (amended): the pipeline of process_file, which consists of the
trailing-comma pass alone, is idempotent — a second run returns its input
unchanged — and the individual guards named by the claim hold: the
ConfigureAwait and StringComparison substitutions leave a match unchanged
when the marker substring is present in the matched span, and the
trailing-comma step never adds a comma to a line already ending in a
comma.  The fix_file pipeline as a whole is not idempotent, as the
counterexample shows: the using-reorder pass can fire on the second run
once the whitespace strip has made the directive sequence contiguous. -/
theorem claim1_trailing_comma_idempotent :
    (∀ c : List Char, processTransform (processTransform c) = processTransform c) ∧
    (∀ g0 g1 g2 : List Char, isSub ".ConfigureAwait".toList g0 = true →
      awaitRepl g0 g1 g2 = g0) ∧
    (∀ g1 : List Char, isSub "StringComparison".toList (g1 ++ [')']) = true →
      assertRepl g1 = g1 ++ [')']) ∧
    (∀ l n : List Char, [','].isSuffixOf (rstrip l) = true → sa1413Step l n = l) := by
  refine ⟨fun c => fix_sa1413_idem c, ?_, ?_, ?_⟩
  · intro g0 g1 g2 h
    rw [awaitRepl, if_pos h]
  · intro g1 h
    rw [assertRepl]
    split
    · next hcond =>
      exfalso
      rw [Bool.and_eq_true] at hcond
      rw [h] at hcond
      simp at hcond
    · rfl
  · intro l n h
    rw [sa1413Step, if_neg]
    simp [sa1413Cond, sa1413Cur, h]

/-- C1 (witness): the guards applied at concrete matches — an await match
already carrying ConfigureAwait, an assertion match already carrying
StringComparison, and a line already ending in a comma. -/
theorem claim1_witness :
    (isSub ".ConfigureAwait".toList "await f().ConfigureAwait(false)".toList = true ∧
      awaitRepl "await f().ConfigureAwait(false)".toList
        "await f().ConfigureAwait(false)".toList [';'] =
        "await f().ConfigureAwait(false)".toList) ∧
    (isSub "StringComparison".toList ("Assert.Equal(a, b, StringComparison.Ordinal".toList ++ [')']) = true ∧
      assertRepl "Assert.Equal(a, b, StringComparison.Ordinal".toList =
        "Assert.Equal(a, b, StringComparison.Ordinal".toList ++ [')']) ∧
    ([','].isSuffixOf (rstrip "  bar,".toList) = true ∧
      sa1413Step "  bar,".toList "  )".toList = "  bar,".toList) :=
  ⟨⟨by decide, claim1_trailing_comma_idempotent.2.1
      "await f().ConfigureAwait(false)".toList
      "await f().ConfigureAwait(false)".toList [';'] (by decide)⟩,
   ⟨by decide, claim1_trailing_comma_idempotent.2.2.1
      "Assert.Equal(a, b, StringComparison.Ordinal".toList (by decide)⟩,
   ⟨by decide, claim1_trailing_comma_idempotent.2.2.2
      "  bar,".toList "  )".toList (by decide)⟩⟩

/-- C2 (counterexample): process_file rewrites a file even when the
transformed text equals the original, so the rewritten-iff-different
contract fails for it. -/
theorem claim2_counterexample :
    ¬(((processFileRun c2doc).2 = true) ↔ processTransform c2doc ≠ c2doc) := by decide

/-- C2 (amended): the change gate holds for fix_file — the file is
rewritten exactly when the transformed text differs from the original and
the on-disk content afterwards is the transformed text — while
process_file writes the transformed text back unconditionally. -/
theorem claim2_change_gate :
    ∀ c : List Char,
      ((fixFileRun c).2 = true ↔ fixFileTransform c ≠ c) ∧
      (fixFileRun c).1 = fixFileTransform c ∧
      (processFileRun c).2 = true ∧
      (processFileRun c).1 = processTransform c := by
  intro c
  by_cases h : fixFileTransform c = c
  · have he : fixFileRun c = (c, false) := by
      simp [fixFileRun, h]
    refine ⟨?_, ?_, rfl, rfl⟩
    · rw [he]
      simp [h]
    · rw [he, h]
  · have he : fixFileRun c = (fixFileTransform c, true) := by
      simp [fixFileRun, h]
    refine ⟨?_, ?_, rfl, rfl⟩
    · rw [he]
      simp [h]
    · rw [he]

/-- C3 (code evaluation at the failing input): the line of the spec
example is left unchanged both by fix_sa1503_single_line_if itself — its
guard rejects every line ending in a semicolon, contradicting the
docstring of the function — and by the process_file pipeline, where the
pass is commented out; in particular the expected four-line expansion is
not produced. -/
theorem claim3_unbraced_line_unchanged :
    fix_sa1503_single_line_if c3line = c3line ∧
    processTransform c3line = c3line ∧
    c3line ≠ c3expected := by decide

/-- C4: the trailing-comma pass appends a comma to exactly the lines
whose rstripped content is non-empty and does not end with a comma,
opening brace, opening parenthesis, or opening bracket while the next
line lstripped starts with a closing brace or parenthesis; the appended
line is the rstripped line plus one comma, all other lines (including the
final one) are unchanged, line count is preserved, and the spec example
rewrites as stated. -/
theorem claim4_trailing_comma :
    (∀ ls : List (List Char), (sa1413Go ls).length = ls.length) ∧
    (∀ ls : List (List Char), ∀ i, i + 1 < ls.length →
      (sa1413Go ls).getD i [] =
        if sa1413Cond (ls.getD i []) (ls.getD (i + 1) []) then
          rstrip (ls.getD i []) ++ [','] else ls.getD i []) ∧
    (∀ ls : List (List Char), (sa1413Go ls).getLast? = ls.getLast?) ∧
    sa1413Go c4lines = ["  foo(".toList, "    bar,".toList, "  )".toList] ∧
    fix_sa1413_trailing_comma "  foo(\n    bar\n  )".toList =
      "  foo(\n    bar,\n  )".toList :=
  ⟨sa1413Go_length, sa1413Go_getD, sa1413Go_getLast?, by decide, by decide⟩

/-- C4 (witness): the pointwise description applied to the middle line of
the spec example. -/
theorem claim4_witness :
    (1 + 1 < c4lines.length) ∧
    (sa1413Go c4lines).getD 1 [] =
      (if sa1413Cond (c4lines.getD 1 []) (c4lines.getD 2 []) then
        rstrip (c4lines.getD 1 []) ++ [','] else c4lines.getD 1 []) :=
  ⟨by decide, claim4_trailing_comma.2.1 c4lines 1 (by decide)⟩

/-- C5: the blank-line pass inserts at most one blank line into each gap
between adjacent original lines — its output is an interleaving of the
original lines with zero or one inserted empty line per gap — and the two
spec examples behave as stated. -/
theorem claim5_blank_lines :
    (∀ (i : Nat) (ls : List (List Char)), ∃ bs : List Bool, sa1516Aux i ls = weave ls bs) ∧
    fix_sa1516_blank_lines "\x7d\npublic void Foo() {}".toList =
      "\x7d\n\npublic void Foo() {}".toList ∧
    fix_sa1516_blank_lines "\x7d\n\x7d".toList = "\x7d\n\x7d".toList :=
  ⟨fun i ls => ⟨gapFlags i ls, sa1516Aux_weave ls i⟩, by decide, by decide⟩

/-- C6 (counterexample): process_file performs no trailing-whitespace
strip — a document consisting of one line with a trailing space passes
through its pipeline unchanged, so a line of the final text keeps its
trailing whitespace. -/
theorem claim6_counterexample :
    processTransform c6doc = c6doc ∧
    ¬(∀ l ∈ splitNl (processTransform c6doc), rstrip l = l) := by decide

/-- C6 (amended): trailing-whitespace stripping is the always-applied
final step of fix_file only: every line of its transformed text is
rstripped.  (process_file applies no such step, as the counterexample
shows.) -/
theorem claim6_strip_final :
    ∀ c l : List Char, l ∈ splitNl (fixFileTransform c) → rstrip l = l :=
  fun _ _ h => stripPass_lines h

/-- C6 (witness): the amended statement applied to the stripped output of
a one-line document with a trailing space. -/
theorem claim6_witness : rstrip "x".toList = "x".toList :=
  claim6_strip_final "x ".toList "x".toList (by decide)

/-- C7 (counterexample): a batch of one unreadable file followed by nine
readable files aborts the fix_integration_tests loop at the first file —
no count is produced — while the fix_style_errors loop reports one error
and processes the other nine. -/
theorem claim7_counterexample :
    runFixBatch c7batch 0 = Except.error () ∧
    runStyleBatch c7batch = false :: List.replicate 9 true :=
  ⟨rfl, by decide⟩

/-- C7 (amended): per-file error containment holds for fix_style_errors —
every file of a batch yields an outcome, failures exactly at the
unreadable files — whereas in fix_integration_tests an unreadable file
aborts the remainder of the batch. -/
theorem claim7_batch :
    (∀ fs : List (Option (List Char)), runStyleBatch fs = fs.map Option.isSome) ∧
    (∀ (fs : List (Option (List Char))) (acc : Nat),
      runFixBatch (none :: fs) acc = Except.error ()) := by
  constructor
  · intro fs
    induction fs with
    | nil => rfl
    | cons f fs2 ih =>
      cases f with
      | none => simp [runStyleBatch, processFileOutcome, ih]
      | some c => simp [runStyleBatch, processFileOutcome, ih]
  · intro fs acc
    rfl

/-- C8 (counterexample): invoked with a path that is neither a file nor a
directory, main prints no usage line, exits with status 0, and processes
nothing — the claimed usage-plus-nonzero-exit behavior only covers the
missing-argument case. -/
theorem claim8_counterexample :
    mainStyleRun ["prog".toList, "missing".toList] PathKind.neither 0 =
      ⟨false, 0, 0⟩ := by decide

/-- C8 (amended): a missing argument prints the usage line, exits with
status 1 and processes no file; an argument naming neither a file nor a
directory processes no file either, but terminates silently with
status 0. -/
theorem claim8_cli :
    (∀ (argv : List (List Char)) (kind : PathKind) (n : Nat),
      argv.length < 2 → mainStyleRun argv kind n = ⟨true, 1, 0⟩) ∧
    (∀ (argv : List (List Char)) (n : Nat), ¬argv.length < 2 →
      mainStyleRun argv PathKind.neither n = ⟨false, 0, 0⟩) := by
  constructor
  · intro argv kind n h
    rw [mainStyleRun.eq_def, if_pos h]
  · intro argv n h
    rw [mainStyleRun.eq_def, if_neg h]

/-- C8 (witness): both cases of the amended statement at concrete
arguments. -/
theorem claim8_witness :
    mainStyleRun [] PathKind.file 0 = ⟨true, 1, 0⟩ ∧
    mainStyleRun ["p".toList, "q".toList] PathKind.neither 3 = ⟨false, 0, 0⟩ :=
  ⟨claim8_cli.1 [] PathKind.file 0 (by decide),
   claim8_cli.2 ["p".toList, "q".toList] 3 (by decide)⟩

/-- C9: when the first 2000 characters hold more than two using
directives, at least one containing System and at least one other, the
pass replaces the first occurrence of the joined directive sequence by
the same directives reordered — a permutation of the collected
directives with the System ones first in lexicographic order followed by
the others in lexicographic order; otherwise the document is returned
unchanged, leaving the directives in their original order. -/
theorem claim9_using_reorder (c : List Char) :
    (usingCond c →
      usingsPass c =
        replaceFirst c (joinNl (usingDirectives c)) (joinNl (usingReordered c)) ∧
      (usingReordered c).Perm (usingDirectives c) ∧
      sortedLe (pySorted (usingFilterSys (usingDirectives c))) ∧
      sortedLe (pySorted (usingFilterOth (usingDirectives c))) ∧
      (∀ u ∈ pySorted (usingFilterSys (usingDirectives c)),
        isSub "System".toList u = true) ∧
      (∀ u ∈ pySorted (usingFilterOth (usingDirectives c)),
        isSub "System".toList u = false)) ∧
    (¬usingCond c → usingsPass c = c) := by
  constructor
  · intro hc
    refine ⟨usingsPass_eq hc, ?_, pySorted_sorted _, pySorted_sorted _, ?_, ?_⟩
    · refine ((pySorted_perm _).append (pySorted_perm _)).trans ?_
      exact usingFilter_perm (fun u hu => mem_findallUsing_ne_nil hu)
    · intro u hu
      have := mem_pySorted.mp hu
      exact (List.mem_filter.mp this).2
    · intro u hu
      have := mem_pySorted.mp hu
      have h2 := (List.mem_filter.mp this).2
      rw [Bool.and_eq_true] at h2
      simpa using h2.1
  · intro hc
    exact usingsPass_id hc

/-- C9 (witness): the characterization applied to a document with three
adjacent using directives, one of them a System directive. -/
theorem claim9_witness :
    usingCond c9doc ∧
    (usingsPass c9doc =
        replaceFirst c9doc (joinNl (usingDirectives c9doc)) (joinNl (usingReordered c9doc)) ∧
      (usingReordered c9doc).Perm (usingDirectives c9doc) ∧
      sortedLe (pySorted (usingFilterSys (usingDirectives c9doc))) ∧
      sortedLe (pySorted (usingFilterOth (usingDirectives c9doc))) ∧
      (∀ u ∈ pySorted (usingFilterSys (usingDirectives c9doc)),
        isSub "System".toList u = true) ∧
      (∀ u ∈ pySorted (usingFilterOth (usingDirectives c9doc)),
        isSub "System".toList u = false)) :=
  ⟨by decide, (claim9_using_reorder c9doc).1 (by decide)⟩

/-- C10: whenever every Message or StackTrace element present under a
Failed entry has non-empty text, the summarizer succeeds, produces one
block per Failed entry — with empty strings for a missing ErrorInfo
child or missing Message or StackTrace children — and the number of
blocks equals the number of entries whose outcome is Failed. -/
theorem claim10_summarizer (results : List TRXResult)
    (h : ∀ r ∈ results, isFailed r = true → entryOk r = true) :
    summarize results = Except.ok ((results.filter isFailed).map blockOf) ∧
    ((results.filter isFailed).map blockOf).length = results.countP isFailed :=
  ⟨summarize_ok h, by simp [List.countP_eq_length_filter]⟩

/-- C10 (witness): the summarizer run on a report with two Failed entries
(one lacking ErrorInfo entirely, one lacking a StackTrace) and one Passed
entry. -/
theorem claim10_witness :
    (∀ r ∈ c10results, isFailed r = true → entryOk r = true) ∧
    (summarize c10results = Except.ok ((c10results.filter isFailed).map blockOf) ∧
      ((c10results.filter isFailed).map blockOf).length = c10results.countP isFailed) :=
  ⟨by decide, claim10_summarizer c10results (by decide)⟩

end Synaxis
